import Mathlib

/-
Verification of the macro parser, event-queue model and frame-paced drain
scheduler of the X16 emulator MCP keyboard subsystem
(src/mcp/keyboard_processor.cpp), as a shallow embedding in Lean 4.

Strings are modelled as `List Char`, the owned event queues as
`List InputEvent`, and the process-wide scheduler globals as an explicit
`QueueManager` record threaded through the two entry points
`submit_input_queue` and `process_input_event_queues`.  `uint32` quantities
(delays, times, budgets) are modelled as `Nat`; none of the claims exercise
32-bit wraparound, and the host clock is monotone.
-/

/-- Event kind tags, after the INPUT_TYPE_KEYBOARD / INPUT_TYPE_JOYSTICK /
INPUT_TYPE_WAIT constants used by the processor. -/
inductive InputType where
  | keyboard : InputType
  | joystick : InputType
  | wait : InputType
deriving DecidableEq

/-- One timed event, after `struct InputEvent` (fields type, is_down, code,
wait_ms); `is_down` is a 0/1 byte in C, modelled as `Bool`. -/
structure InputEvent where
  type : InputType
  is_down : Bool
  code : Nat
  wait_ms : Nat
deriving DecidableEq

/-- KEY_EVENT_MIN_DELAY_MS from keyboard_processor.cpp. -/
def KEY_EVENT_MIN_DELAY_MS : Nat := 5

/-- KEY_EVENT_UP_DELAY_MS from keyboard_processor.cpp. -/
def KEY_EVENT_UP_DELAY_MS : Nat := 10

/-- SDL scancode of the left shift key (SDL_SCANCODE_LSHIFT). -/
def SDL_SCANCODE_LSHIFT : Nat := 225

/-- SDL scancode of the left alt key (SDL_SCANCODE_LALT), used by the
processor as the Commodore/ctrl modifier. -/
def SDL_SCANCODE_LALT : Nat := 226

/-- Shorthand for a keyboard event as built by `queue->add_event`. -/
def mkKeyEvent (code : Nat) (down : Bool) (wait : Nat) : InputEvent :=
  ⟨InputType.keyboard, down, code, wait⟩

/-- Shorthand for a wait event as built by
`queue->add_event(INPUT_TYPE_WAIT, 0, 0, wait_ms)`. -/
def mkWaitEvent (ms : Nat) : InputEvent :=
  ⟨InputType.wait, false, 0, ms⟩

/-- The display mode enum (DisplayMode::PETSCII / DisplayMode::ASCII). -/
inductive DisplayMode where
  | PETSCII : DisplayMode
  | ASCII : DisplayMode
deriving DecidableEq

/-- One row of the ASCII character table, after `struct CharacterMapping`. -/
structure CharacterMapping where
  ascii_char : Char
  scancode : Nat
  needs_shift : Bool
  needs_ctrl : Bool
deriving DecidableEq

/-- The apostrophe character (ASCII 39). -/
def apostropheChar : Char := Char.ofNat 39

/-- The double-quote character (ASCII 34). -/
def quoteChar : Char := Char.ofNat 34

/-- The backtick character (ASCII 96), the macro delimiter. -/
def backtickChar : Char := Char.ofNat 96

/-- The backslash character (ASCII 92). -/
def backslashChar : Char := Char.ofNat 92

/-- The newline character (ASCII 10). -/
def newlineChar : Char := Char.ofNat 10

/-- The tab character (ASCII 9). -/
def tabChar : Char := Char.ofNat 9

set_option maxHeartbeats 1000000 in
/-- The `char_map` table of keyboard_processor.cpp, row by row, with the SDL
scancode constants replaced by their numeric values (letters 4..29, digit row
30..39, punctuation 44..56, RETURN 40, TAB 43). -/
def char_map : List CharacterMapping := [
  ⟨'a', 4, false, false⟩, ⟨'b', 5, false, false⟩, ⟨'c', 6, false, false⟩,
  ⟨'d', 7, false, false⟩, ⟨'e', 8, false, false⟩, ⟨'f', 9, false, false⟩,
  ⟨'g', 10, false, false⟩, ⟨'h', 11, false, false⟩, ⟨'i', 12, false, false⟩,
  ⟨'j', 13, false, false⟩, ⟨'k', 14, false, false⟩, ⟨'l', 15, false, false⟩,
  ⟨'m', 16, false, false⟩, ⟨'n', 17, false, false⟩, ⟨'o', 18, false, false⟩,
  ⟨'p', 19, false, false⟩, ⟨'q', 20, false, false⟩, ⟨'r', 21, false, false⟩,
  ⟨'s', 22, false, false⟩, ⟨'t', 23, false, false⟩, ⟨'u', 24, false, false⟩,
  ⟨'v', 25, false, false⟩, ⟨'w', 26, false, false⟩, ⟨'x', 27, false, false⟩,
  ⟨'y', 28, false, false⟩, ⟨'z', 29, false, false⟩,
  ⟨'A', 4, false, false⟩, ⟨'B', 5, false, false⟩, ⟨'C', 6, false, false⟩,
  ⟨'D', 7, false, false⟩, ⟨'E', 8, false, false⟩, ⟨'F', 9, false, false⟩,
  ⟨'G', 10, false, false⟩, ⟨'H', 11, false, false⟩, ⟨'I', 12, false, false⟩,
  ⟨'J', 13, false, false⟩, ⟨'K', 14, false, false⟩, ⟨'L', 15, false, false⟩,
  ⟨'M', 16, false, false⟩, ⟨'N', 17, false, false⟩, ⟨'O', 18, false, false⟩,
  ⟨'P', 19, false, false⟩, ⟨'Q', 20, false, false⟩, ⟨'R', 21, false, false⟩,
  ⟨'S', 22, false, false⟩, ⟨'T', 23, false, false⟩, ⟨'U', 24, false, false⟩,
  ⟨'V', 25, false, false⟩, ⟨'W', 26, false, false⟩, ⟨'X', 27, false, false⟩,
  ⟨'Y', 28, false, false⟩, ⟨'Z', 29, false, false⟩,
  ⟨'0', 39, false, false⟩, ⟨'1', 30, false, false⟩, ⟨'2', 31, false, false⟩,
  ⟨'3', 32, false, false⟩, ⟨'4', 33, false, false⟩, ⟨'5', 34, false, false⟩,
  ⟨'6', 35, false, false⟩, ⟨'7', 36, false, false⟩, ⟨'8', 37, false, false⟩,
  ⟨'9', 38, false, false⟩,
  ⟨'!', 30, true, false⟩, ⟨'@', 31, true, false⟩, ⟨'#', 32, true, false⟩,
  ⟨'$', 33, true, false⟩, ⟨'%', 34, true, false⟩, ⟨'^', 35, true, false⟩,
  ⟨'&', 36, true, false⟩, ⟨'*', 37, true, false⟩, ⟨'(', 38, true, false⟩,
  ⟨')', 39, true, false⟩, ⟨quoteChar, 52, true, false⟩,
  ⟨' ', 44, false, false⟩, ⟨',', 54, false, false⟩, ⟨'.', 55, false, false⟩,
  ⟨'/', 56, false, false⟩, ⟨';', 51, false, false⟩,
  ⟨apostropheChar, 52, false, false⟩, ⟨'-', 45, false, false⟩,
  ⟨'=', 46, false, false⟩, ⟨'[', 47, false, false⟩, ⟨']', 48, false, false⟩,
  ⟨backslashChar, 49, false, false⟩,
  ⟨newlineChar, 40, false, false⟩, ⟨tabChar, 43, false, false⟩]

/-- The initialized `char_lookup` array: the direct 128-entry table built by
`init_char_lookup`, entries not present in char_map keeping scancode 0
("no mapping").  char_map holds no duplicate characters, so the first match
equals the last-write-wins of the C initialization loop. -/
def char_lookup (c : Char) : CharacterMapping :=
  (char_map.find? (fun m => m.ascii_char = c)).getD ⟨c, 0, false, false⟩

/-- Tag of a `MacroAction` (MACRO_KEY / MACRO_WAIT). -/
inductive MacroActionType where
  | MACRO_KEY : MacroActionType
  | MACRO_WAIT : MacroActionType
deriving DecidableEq

/-- One entry of the named-macro table, after `struct MacroAction`. -/
structure MacroAction where
  type : MacroActionType
  value : Nat
  needs_shift : Bool
  needs_ctrl : Bool
deriving DecidableEq

/-- The `macro_map` table of keyboard_processor.cpp, with SDL scancode
constants replaced by their numeric values.  The C `std::unordered_map` has
no duplicate keys, so an association list searched with `find?` models it. -/
def macro_map : List (String × MacroAction) := [
  ("ENTER", ⟨MacroActionType.MACRO_KEY, 40, false, false⟩),
  ("RETURN", ⟨MacroActionType.MACRO_KEY, 40, false, false⟩),
  ("TAB", ⟨MacroActionType.MACRO_KEY, 43, false, false⟩),
  ("ESCAPE", ⟨MacroActionType.MACRO_KEY, 41, false, false⟩),
  ("ESC", ⟨MacroActionType.MACRO_KEY, 41, false, false⟩),
  ("SPACE", ⟨MacroActionType.MACRO_KEY, 44, false, false⟩),
  ("BACKSPACE", ⟨MacroActionType.MACRO_KEY, 42, false, false⟩),
  ("BS", ⟨MacroActionType.MACRO_KEY, 42, false, false⟩),
  ("DELETE", ⟨MacroActionType.MACRO_KEY, 76, false, false⟩),
  ("DEL", ⟨MacroActionType.MACRO_KEY, 76, false, false⟩),
  ("UP", ⟨MacroActionType.MACRO_KEY, 82, false, false⟩),
  ("DOWN", ⟨MacroActionType.MACRO_KEY, 81, false, false⟩),
  ("LEFT", ⟨MacroActionType.MACRO_KEY, 80, false, false⟩),
  ("RIGHT", ⟨MacroActionType.MACRO_KEY, 79, false, false⟩),
  ("CRSR-UP", ⟨MacroActionType.MACRO_KEY, 82, false, false⟩),
  ("CRSR-DOWN", ⟨MacroActionType.MACRO_KEY, 81, false, false⟩),
  ("CRSR-LEFT", ⟨MacroActionType.MACRO_KEY, 80, false, false⟩),
  ("CRSR-RIGHT", ⟨MacroActionType.MACRO_KEY, 79, false, false⟩),
  ("F1", ⟨MacroActionType.MACRO_KEY, 58, false, false⟩),
  ("F2", ⟨MacroActionType.MACRO_KEY, 59, false, false⟩),
  ("F3", ⟨MacroActionType.MACRO_KEY, 60, false, false⟩),
  ("F4", ⟨MacroActionType.MACRO_KEY, 61, false, false⟩),
  ("F5", ⟨MacroActionType.MACRO_KEY, 62, false, false⟩),
  ("F6", ⟨MacroActionType.MACRO_KEY, 63, false, false⟩),
  ("F7", ⟨MacroActionType.MACRO_KEY, 64, false, false⟩),
  ("F8", ⟨MacroActionType.MACRO_KEY, 65, false, false⟩),
  ("HOME", ⟨MacroActionType.MACRO_KEY, 74, false, false⟩),
  ("END", ⟨MacroActionType.MACRO_KEY, 77, false, false⟩),
  ("CLR", ⟨MacroActionType.MACRO_KEY, 74, true, false⟩),
  ("INST-DEL", ⟨MacroActionType.MACRO_KEY, 42, false, false⟩),
  ("BLACK", ⟨MacroActionType.MACRO_KEY, 31, false, true⟩),
  ("WHITE", ⟨MacroActionType.MACRO_KEY, 38, false, true⟩),
  ("RED", ⟨MacroActionType.MACRO_KEY, 32, false, true⟩),
  ("CYAN", ⟨MacroActionType.MACRO_KEY, 33, false, true⟩),
  ("PURPLE", ⟨MacroActionType.MACRO_KEY, 34, false, true⟩),
  ("GREEN", ⟨MacroActionType.MACRO_KEY, 35, false, true⟩),
  ("BLUE", ⟨MacroActionType.MACRO_KEY, 36, false, true⟩),
  ("YELLOW", ⟨MacroActionType.MACRO_KEY, 37, false, true⟩),
  ("HEART", ⟨MacroActionType.MACRO_KEY, 22, true, false⟩),
  ("SPADE", ⟨MacroActionType.MACRO_KEY, 4, true, false⟩),
  ("CLUB", ⟨MacroActionType.MACRO_KEY, 27, true, false⟩),
  ("DIAMOND", ⟨MacroActionType.MACRO_KEY, 29, true, false⟩)]

/-- Parser state threaded through translation: the event list built so far
(in order) plus the carried modifier flags `shift_down` / `ctrl_down`. -/
structure ParseState where
  events : List InputEvent
  shift_down : Bool
  ctrl_down : Bool
deriving DecidableEq

/-- The valid-macro-character test of parse loop in the C scanner:
letters, digits, underscore, hyphen, period. -/
def isMacroChar (c : Char) : Bool :=
  (65 ≤ c.toNat && c.toNat ≤ 90) || (97 ≤ c.toNat && c.toNat ≤ 122) ||
  (48 ≤ c.toNat && c.toNat ≤ 57) || c = '_' || c = '-' || c = '.'

/-- The in-place uppercase conversion `c = c - 'a' + 'A'` applied to macro
names before lookup. -/
def toUpperChar (c : Char) : Char :=
  if 97 ≤ c.toNat && c.toNat ≤ 122 then Char.ofNat (c.toNat - 32) else c

/-- Value of a digit string, most significant digit first. -/
def digitsVal (l : List Char) : Nat :=
  l.foldl (fun acc c => 10 * acc + (c.toNat - 48)) 0

/-- Model of the wait-numeral evaluation in the dynamic-wait branch: C calls
`strtod` on the (uppercased) text after the underscore, rejects when no
conversion happened or the value is negative, and converts to milliseconds,
dividing by the `.`-in-string test (seconds) or not (integer milliseconds);
the final `(uint32_t)` cast truncates.  The model parses the
`[-][digits][.digits]` prefix exactly as strtod does on this restricted
alphabet and computes the truncation in exact integer arithmetic; strtod's
exponent/infinity/nan forms and double rounding in the final ulp are not
modelled — every claim instantiates this only at numerals whose double
computation is exact. -/
def waitFromNumeral (s : List Char) : Option Nat :=
  let neg := s.head? = some '-'
  let s1 := if neg then s.tail else s
  let ip := s1.takeWhile Char.isDigit
  let s2 := s1.drop ip.length
  let fp := if s2.head? = some '.' then s2.tail.takeWhile Char.isDigit else []
  if ip.isEmpty && fp.isEmpty then none
  else if neg && (0 < digitsVal ip || 0 < digitsVal fp) then none
  else some (if s.contains '.' then
      digitsVal ip * 1000 + digitsVal fp * 1000 / 10 ^ fp.length
    else digitsVal ip)

/-- Append one event, after `InputEventQueue::add_event`. -/
def addEvent (st : ParseState) (e : InputEvent) : ParseState :=
  { st with events := st.events ++ [e] }

/-- The MACRO_KEY / MACRO_WAIT emission at the end of parse_macro: modifier
toggles when the required shift/ctrl state differs from the carried one, then
the press (typing-rate delay) and release (KEY_EVENT_UP_DELAY_MS) pair. -/
def applyMacroAction (a : MacroAction) (typing_rate_ms : Nat)
    (st : ParseState) : ParseState :=
  match a.type with
  | MacroActionType.MACRO_WAIT => addEvent st (mkWaitEvent a.value)
  | MacroActionType.MACRO_KEY =>
    let st := if a.needs_shift ≠ st.shift_down then
        { addEvent st (mkKeyEvent SDL_SCANCODE_LSHIFT a.needs_shift
            KEY_EVENT_MIN_DELAY_MS) with shift_down := a.needs_shift }
      else st
    let st := if a.needs_ctrl ≠ st.ctrl_down then
        { addEvent st (mkKeyEvent SDL_SCANCODE_LALT a.needs_ctrl
            KEY_EVENT_MIN_DELAY_MS) with ctrl_down := a.needs_ctrl }
      else st
    let st := addEvent st (mkKeyEvent a.value true typing_rate_ms)
    addEvent st (mkKeyEvent a.value false KEY_EVENT_UP_DELAY_MS)

/-- The parse loop of the C scanner starting at the character after the
opening backtick: scan the longest run of macro characters, uppercase it,
then (in this order) try the dynamic-wait form `_numeral`, else the
named-macro table; unknown names and bad wait values only log a warning.
Returns the number of characters consumed and the updated state. -/
def parse_macro (input : List Char) (typing_rate_ms : Nat)
    (st : ParseState) : Nat × ParseState :=
  let name := input.takeWhile isMacroChar
  if name.isEmpty then (0, st)
  else
    let uname := name.map toUpperChar
    let consumed := name.length
    if uname.head? = some '_' && 1 < uname.length then
      match waitFromNumeral (uname.drop 1) with
      | none => (consumed, st)
      | some ms => (consumed, addEvent st (mkWaitEvent ms))
    else
      match (macro_map.find? (fun p => p.1 = String.mk uname)).map Prod.snd with
      | none => (consumed, st)
      | some a => (consumed, applyMacroAction a typing_rate_ms st)

/-- The literal-character path of translate_ascii_to_events: characters at or
above 128 or without a table mapping are skipped; uppercase letters require
shift in ASCII display mode; modifier toggles are emitted on state change,
then the press/release pair. -/
def processChar (mode : DisplayMode) (typing_rate_ms : Nat) (c : Char)
    (st : ParseState) : ParseState :=
  if 128 ≤ c.toNat then st
  else
    let m := char_lookup c
    if m.scancode = 0 then st
    else
      let needs_shift := m.needs_shift ||
        ((mode = DisplayMode.ASCII : Bool) && 65 ≤ c.toNat && c.toNat ≤ 90)
      let st := if needs_shift ≠ st.shift_down then
          { addEvent st (mkKeyEvent SDL_SCANCODE_LSHIFT needs_shift
              KEY_EVENT_MIN_DELAY_MS) with shift_down := needs_shift }
        else st
      let st := if m.needs_ctrl ≠ st.ctrl_down then
          { addEvent st (mkKeyEvent SDL_SCANCODE_LALT m.needs_ctrl
              KEY_EVENT_MIN_DELAY_MS) with ctrl_down := m.needs_ctrl }
        else st
      let st := addEvent st (mkKeyEvent m.scancode true typing_rate_ms)
      addEvent st (mkKeyEvent m.scancode false KEY_EVENT_UP_DELAY_MS)

/-- The main scan loop of translate_ascii_to_events, recursing on the input
suffix; the fuel argument (always at least the list length) makes the
recursion structural where the C loop advances an index.  A backtick opens a
macro; an unterminated macro at end of input stops the scan (C logs a warning
and breaks), a missing closing backtick after a parsed macro resumes at the
next character (C logs a warning and continues). -/
def translateLoop (mode : DisplayMode) (typing_rate_ms : Nat) :
    Nat → List Char → ParseState → ParseState
  | 0, _, st => st
  | _ + 1, [], st => st
  | fuel + 1, c :: rest, st =>
    if c = backtickChar then
      if rest.isEmpty then st
      else
        let r := parse_macro rest typing_rate_ms st
        if 0 < r.1 then
          if (rest.drop r.1).head? = some backtickChar then
            translateLoop mode typing_rate_ms fuel (rest.drop r.1).tail r.2
          else
            translateLoop mode typing_rate_ms fuel (rest.drop r.1) r.2
        else
          translateLoop mode typing_rate_ms fuel rest.tail r.2
    else
      translateLoop mode typing_rate_ms fuel rest
        (processChar mode typing_rate_ms c st)

/-- translate_ascii_to_events on a non-null queue: run the scan loop from an
empty queue and released modifiers, then release any still-held modifier at
minimum delay, and report success.  (The C function returns false only for a
NULL destination queue, modelled away by returning the built queue.) -/
def translate_ascii_to_events (input : List Char) (typing_rate_ms : Nat)
    (mode : DisplayMode) : List InputEvent × Bool :=
  let st := translateLoop mode typing_rate_ms input.length input ⟨[], false, false⟩
  let evs := st.events ++
    (if st.shift_down then
      [mkKeyEvent SDL_SCANCODE_LSHIFT false KEY_EVENT_MIN_DELAY_MS] else []) ++
    (if st.ctrl_down then
      [mkKeyEvent SDL_SCANCODE_LALT false KEY_EVENT_MIN_DELAY_MS] else [])
  (evs, true)

/-- Result of draining one queue's remaining suffix: the events still not due,
the budget left, and the events fired (in order). -/
structure QueueDrain where
  rem : List InputEvent
  budget : Nat
  fired : List InputEvent
deriving DecidableEq

/-- The inner event loop of process_input_event_queues on the current queue's
remaining events: while enough budget has accumulated for the next event's
pre-delay, deduct the delay and fire the event; stop (preserving budget and
cursor) at the first event whose delay has not yet elapsed. -/
def drainQueue : List InputEvent → Nat → QueueDrain
  | [], b => ⟨[], b, []⟩
  | e :: rest, b =>
    if b < e.wait_ms then ⟨e :: rest, b, []⟩
    else
      let r := drainQueue rest (b - e.wait_ms)
      ⟨r.rem, r.budget, e :: r.fired⟩

/-- Result of the outer queue loop: pending queues left, per-event cursor,
budget left, events fired. -/
structure DrainResult where
  queues : List (List InputEvent)
  idx : Nat
  budget : Nat
  fired : List InputEvent
deriving DecidableEq

/-- The outer while loop of process_input_event_queues: drain the front
queue from the cursor; when it is exhausted destroy and pop it, reset the
cursor to 0 and continue with the next queue inside the same tick; otherwise
stop with the cursor advanced past the fired events. -/
def drainQueues : List (List InputEvent) → Nat → Nat → DrainResult
  | [], idx, b => ⟨[], idx, b, []⟩
  | q :: qs, idx, b =>
    let r := drainQueue (q.drop idx) b
    if r.rem.isEmpty then
      let r2 := drainQueues qs 0 r.budget
      ⟨r2.queues, r2.idx, r2.budget, r.fired ++ r2.fired⟩
    else ⟨q :: qs, idx + r.fired.length, r.budget, r.fired⟩

/-- The process-wide queue-manager globals of keyboard_processor.cpp:
g_pending_queues, g_current_event_index, g_last_event_time, g_elapsed_time,
g_processing_active. -/
structure QueueManager where
  pending : List (List InputEvent)
  current_event_index : Nat
  last_event_time : Nat
  elapsed_time : Nat
  processing_active : Bool
deriving DecidableEq

/-- process_input_event_queues, one tick at host time `now`: no-op when
inactive or no queue is pending; otherwise accrue `now - last_event_time`
into the elapsed budget, fire every due event across queue boundaries, and
mark the manager inactive when every queue has been exhausted.  Also returns
the list of events fired during the call (each keyboard event among them is
handed to handle_keyboard). -/
def process_input_event_queues (m : QueueManager) (now : Nat) :
    QueueManager × List InputEvent :=
  if m.processing_active = false ∨ m.pending = [] then (m, [])
  else
    let r := drainQueues m.pending m.current_event_index
      (m.elapsed_time + (now - m.last_event_time))
    (⟨r.queues, r.idx, now, r.budget,
      if r.queues = [] then false else m.processing_active⟩, r.fired)

/-- submit_input_queue at host time `now`: a null queue is rejected
(logged, no-op); otherwise the queue is appended to the pending list, and if
the manager was not active — or the pending list just became a single queue —
the cursor, budget and last-tick time are reset and processing activated. -/
def submit_input_queue (m : QueueManager) (q : Option (List InputEvent))
    (now : Nat) : QueueManager :=
  match q with
  | none => m
  | some q =>
    let pending := m.pending ++ [q]
    if m.processing_active = false ∨ pending.length = 1 then
      ⟨pending, 0, now, 0, true⟩
    else
      { m with pending := pending }

/-- A sequence of drain ticks at the given host times, with the fired events
of every tick concatenated in order. -/
def run_ticks (m : QueueManager) : List Nat → QueueManager × List InputEvent
  | [] => (m, [])
  | t :: ts =>
    let r := process_input_event_queues m t
    let r2 := run_ticks r.1 ts
    (r2.1, r.2 ++ r2.2)

/-- The events of a pending-queue list past the cursor, in the order the
drain scheduler will fire them: the front queue past the cursor, then the
later queues whole. -/
def pendingRemaining (qs : List (List InputEvent)) (idx : Nat) :
    List InputEvent :=
  match qs with
  | [] => []
  | q :: rest => q.drop idx ++ rest.flatten

/-- The events of a manager that have not yet fired, in firing order. -/
def remaining_events (m : QueueManager) : List InputEvent :=
  pendingRemaining m.pending m.current_event_index

/-- Sum of the pre-delays of a list of events. -/
def sumWait (l : List InputEvent) : Nat :=
  (l.map InputEvent.wait_ms).sum

/-- The shift/ctrl key state of the emulated keyboard after injecting every
event of the list in order: keyboard events whose scancode is the left-shift
or left-alt (Commodore) modifier set that modifier to their `is_down`; all
other events leave hardware modifier state unchanged. -/
def stepMod (s : Bool × Bool) (e : InputEvent) : Bool × Bool :=
  if e.type = InputType.keyboard ∧ e.code = SDL_SCANCODE_LSHIFT then
    (e.is_down, s.2)
  else if e.type = InputType.keyboard ∧ e.code = SDL_SCANCODE_LALT then
    (s.1, e.is_down)
  else s

/-- Modifier key state after a whole queue is drained, starting released. -/
def modReplay (l : List InputEvent) : Bool × Bool :=
  l.foldl stepMod (false, false)

/-- Draining never loses or reorders events: the fired prefix followed by the
still-remaining suffix is the original queue segment. -/
theorem drainQueue_split (l : List InputEvent) (b : Nat) :
    (drainQueue l b).fired ++ (drainQueue l b).rem = l := by
  induction l generalizing b with
  | nil => simp [drainQueue]
  | cons e rest ih =>
    by_cases h : b < e.wait_ms
    · simp [drainQueue, h]
    · simp [drainQueue, h, ih]

/-- Each fired event consumes exactly its pre-delay from the budget. -/
theorem drainQueue_budget (l : List InputEvent) (b : Nat) :
    (drainQueue l b).budget + sumWait (drainQueue l b).fired = b := by
  induction l generalizing b with
  | nil => simp [drainQueue, sumWait]
  | cons e rest ih =>
    by_cases h : b < e.wait_ms
    · simp [drainQueue, h, sumWait]
    · have h2 := ih (b - e.wait_ms)
      simp only [drainQueue, if_neg h] at h2 ⊢
      simp only [sumWait, List.map_cons, List.sum_cons] at h2 ⊢
      omega

/-- When draining stops with events left, the head's pre-delay strictly
exceeds the preserved budget. -/
theorem drainQueue_stuck (l : List InputEvent) (b : Nat) :
    (drainQueue l b).rem = [] ∨
    ∃ e rest, (drainQueue l b).rem = e :: rest ∧
      (drainQueue l b).budget < e.wait_ms := by
  induction l generalizing b with
  | nil => left; simp [drainQueue]
  | cons e rest ih =>
    by_cases h : b < e.wait_ms
    · right
      exact ⟨e, rest, by simp [drainQueue, h], by simp [drainQueue, h]⟩
    · have h2 := ih (b - e.wait_ms)
      simp only [drainQueue, if_neg h]
      exact h2

/-- Re-draining a stopped drain with the same budget fires nothing. -/
theorem drainQueue_idem (l : List InputEvent) (b : Nat) :
    drainQueue (drainQueue l b).rem (drainQueue l b).budget
      = ⟨(drainQueue l b).rem, (drainQueue l b).budget, []⟩ := by
  rcases drainQueue_stuck l b with h | ⟨e, rest, h, hb⟩
  · rw [h]; rfl
  · rw [h]; simp [drainQueue, hb]

/-- Dropping the length of a known prefix leaves the known suffix. -/
theorem drop_of_append_eq {α : Type} {F R l : List α} (h : F ++ R = l) :
    l.drop F.length = R := by
  rw [← h]; exact List.drop_left F R

/-- The cursor advanced past the fired events points at the remaining
suffix of the front queue. -/
theorem drainQueue_drop (q : List InputEvent) (idx b : Nat) :
    q.drop (idx + (drainQueue (q.drop idx) b).fired.length)
      = (drainQueue (q.drop idx) b).rem := by
  rw [← List.drop_drop]
  exact drop_of_append_eq (drainQueue_split (q.drop idx) b)

/-- The outer drain loop never loses or reorders events across queue
boundaries. -/
theorem drainQueues_split (qs : List (List InputEvent)) (idx b : Nat) :
    (drainQueues qs idx b).fired ++
      pendingRemaining (drainQueues qs idx b).queues (drainQueues qs idx b).idx
      = pendingRemaining qs idx := by
  induction qs generalizing idx b with
  | nil => simp [drainQueues, pendingRemaining]
  | cons q rest ih =>
    by_cases hr : (drainQueue (q.drop idx) b).rem = []
    · have hq : (drainQueue (q.drop idx) b).fired = q.drop idx := by
        have h := drainQueue_split (q.drop idx) b
        rw [hr] at h; simpa using h
      have hrec := ih 0 (drainQueue (q.drop idx) b).budget
      simp only [drainQueues, hr, List.isEmpty_nil, if_pos]
      simp only [pendingRemaining] at hrec ⊢
      cases rest with
      | nil =>
        simp only [drainQueues] at hrec ⊢
        simp [hq]
      | cons q2 rest2 =>
        rw [List.append_assoc, hrec, hq]
        simp
    · have hne : (drainQueue (q.drop idx) b).rem.isEmpty = false := by
        cases h : (drainQueue (q.drop idx) b).rem with
        | nil => exact absurd h hr
        | cons a l => simp
      simp only [drainQueues, hne, Bool.false_eq_true, if_neg, ite_false]
      simp only [pendingRemaining]
      rw [drainQueue_drop, ← List.append_assoc, drainQueue_split]

/-- Sum of pre-delays distributes over concatenation. -/
theorem sumWait_append (l1 l2 : List InputEvent) :
    sumWait (l1 ++ l2) = sumWait l1 + sumWait l2 := by
  simp [sumWait]

/-- Across the whole tick, fired events consume exactly their pre-delays
from the accrued budget. -/
theorem drainQueues_budget (qs : List (List InputEvent)) (idx b : Nat) :
    (drainQueues qs idx b).budget + sumWait (drainQueues qs idx b).fired
      = b := by
  induction qs generalizing idx b with
  | nil => simp [drainQueues, sumWait]
  | cons q rest ih =>
    by_cases hr : (drainQueue (q.drop idx) b).rem = []
    · have h1 := drainQueue_budget (q.drop idx) b
      have h2 := ih 0 (drainQueue (q.drop idx) b).budget
      simp only [drainQueues, hr, List.isEmpty_nil, if_pos, sumWait_append]
      omega
    · have hne : (drainQueue (q.drop idx) b).rem.isEmpty = false := by
        cases h : (drainQueue (q.drop idx) b).rem with
        | nil => exact absurd h hr
        | cons a l => simp
      have h1 := drainQueue_budget (q.drop idx) b
      simp only [drainQueues, hne, Bool.false_eq_true, if_neg, ite_false]
      exact h1

/-- When the tick exhausts every pending queue, the per-event cursor is
left at zero. -/
theorem drainQueues_exhaust_idx (qs : List (List InputEvent)) (idx b : Nat)
    (hqs : qs ≠ []) (h : (drainQueues qs idx b).queues = []) :
    (drainQueues qs idx b).idx = 0 := by
  induction qs generalizing idx b with
  | nil => exact absurd rfl hqs
  | cons q rest ih =>
    by_cases hr : (drainQueue (q.drop idx) b).rem = []
    · simp only [drainQueues, hr, List.isEmpty_nil, if_pos] at h ⊢
      cases rest with
      | nil => simp [drainQueues]
      | cons q2 rest2 =>
        exact ih 0 (drainQueue (q.drop idx) b).budget (by simp) h
    · have hne : (drainQueue (q.drop idx) b).rem.isEmpty = false := by
        cases hx : (drainQueue (q.drop idx) b).rem with
        | nil => exact absurd hx hr
        | cons a l => simp
      simp only [drainQueues, hne, Bool.false_eq_true, if_neg, ite_false] at h
      exact absurd h (by simp)

/-- Re-running the outer drain loop on its own output with the leftover
budget fires nothing and leaves the state unchanged. -/
theorem drainQueues_idem (qs : List (List InputEvent)) (idx b : Nat) :
    drainQueues (drainQueues qs idx b).queues (drainQueues qs idx b).idx
      (drainQueues qs idx b).budget
    = ⟨(drainQueues qs idx b).queues, (drainQueues qs idx b).idx,
       (drainQueues qs idx b).budget, []⟩ := by
  induction qs generalizing idx b with
  | nil => simp [drainQueues]
  | cons q rest ih =>
    by_cases hr : (drainQueue (q.drop idx) b).rem = []
    · simp only [drainQueues, hr, List.isEmpty_nil, if_pos]
      exact ih 0 (drainQueue (q.drop idx) b).budget
    · have hne : (drainQueue (q.drop idx) b).rem.isEmpty = false := by
        cases hx : (drainQueue (q.drop idx) b).rem with
        | nil => exact absurd hx hr
        | cons a l => simp
      simp only [drainQueues, hne, Bool.false_eq_true, if_neg, ite_false]
      have hdrop := drainQueue_drop q idx b
      have hidem := drainQueue_idem (q.drop idx) b
      simp only [drainQueues, hdrop, hidem, hne, Bool.false_eq_true, if_neg,
        ite_false, List.length_nil, Nat.add_zero]

/-- One drain tick never loses or reorders events: what it fires followed by
what still remains is exactly what remained before the tick. -/
theorem process_conservation (m : QueueManager) (now : Nat) :
    (process_input_event_queues m now).2 ++
      remaining_events (process_input_event_queues m now).1
      = remaining_events m := by
  by_cases h : m.processing_active = false ∨ m.pending = []
  · simp [process_input_event_queues, h]
  · simp only [process_input_event_queues, h, if_neg, ite_false,
      remaining_events]
    exact drainQueues_split m.pending m.current_event_index _

/-- Any sequence of drain ticks never loses or reorders events. -/
theorem run_ticks_conservation (ts : List Nat) (m : QueueManager) :
    (run_ticks m ts).2 ++ remaining_events (run_ticks m ts).1
      = remaining_events m := by
  induction ts generalizing m with
  | nil => simp [run_ticks]
  | cons t ts ih =>
    simp only [run_ticks, List.append_assoc]
    rw [ih, process_conservation]

/-- Draining a queue whose events all carry pre-delay `d` fires exactly
`min (b / d) length` events and consumes `d` from the budget per event. -/
theorem drainQueue_uniform (d : Nat) (hd : 0 < d) :
    ∀ (l : List InputEvent) (b : Nat), (∀ e ∈ l, e.wait_ms = d) →
    drainQueue l b = ⟨l.drop (min (b / d) l.length),
      b - d * min (b / d) l.length, l.take (min (b / d) l.length)⟩ := by
  intro l
  induction l with
  | nil => intro b _; simp [drainQueue]
  | cons e rest ih =>
    intro b h
    have he : e.wait_ms = d := h e (by simp)
    by_cases hb : b < d
    · have h0 : b / d = 0 := Nat.div_eq_of_lt hb
      simp [drainQueue, he, hb, h0]
    · push_neg at hb
      have hdiv : b / d = (b - d) / d + 1 := Nat.div_eq_sub_div hd hb
      have hrec := ih (b - d) (fun x hx => h x (by simp [hx]))
      simp only [drainQueue, he, hrec, List.length_cons,
        hdiv, Nat.succ_min_succ, List.drop_succ_cons, List.take_succ_cons,
        Nat.mul_succ]
      rw [if_neg (by omega : ¬ b < d)]
      simp only [QueueDrain.mk.injEq]
      exact ⟨trivial, by omega, trivial⟩

/-- Claim C1: for a queue of N events each with pre-delay d submitted to an
idle manager, one drain_tick whose now is k*d past the last tick time
(k ≤ N) fires exactly min(k,N) events in that single call, and the remaining
elapsed-time budget afterwards is exactly k*d - min(k,N)*d. -/
theorem C1_drain_budget_exact (N k d t1 i0 l0 e0 : Nat) (q : List InputEvent)
    (hlen : q.length = N) (hw : ∀ e ∈ q, e.wait_ms = d)
    (hd : 0 < d) (hk : k ≤ N) :
    (process_input_event_queues
        (submit_input_queue ⟨[], i0, l0, e0, false⟩ (some q) t1)
        (t1 + k * d)).2.length = min k N ∧
    (process_input_event_queues
        (submit_input_queue ⟨[], i0, l0, e0, false⟩ (some q) t1)
        (t1 + k * d)).1.elapsed_time = k * d - min k N * d := by
  have hmin : min k N = k := Nat.min_eq_left hk
  have hsub : submit_input_queue ⟨[], i0, l0, e0, false⟩ (some q) t1
      = ⟨[q], 0, t1, 0, true⟩ := by
    simp [submit_input_queue]
  rw [hsub, hmin]
  have hbud : 0 + (t1 + k * d - t1) = k * d := by omega
  have hdivk : k * d / d = k := Nat.mul_div_cancel k hd
  have hq := drainQueue_uniform d hd q (k * d) hw
  rw [hdivk, hlen, hmin] at hq
  simp only [process_input_event_queues, Bool.true_eq_false, false_or,
    List.cons_ne_self, hbud]
  by_cases hkN : k = N
  · have hrem : q.drop k = [] := by rw [List.drop_eq_nil_iff]; omega
    have hqs : drainQueues [q] 0 (k * d)
        = ⟨[], 0, k * d - d * k, q.take k⟩ := by
      simp [drainQueues, List.drop_zero, hq, hrem]
    simp [hqs, List.length_take, hlen, Nat.mul_comm d k]
    omega
  · have hrem : ¬ q.drop k = [] := by rw [List.drop_eq_nil_iff]; omega
    have hne : (q.drop k).isEmpty = false := by
      cases hx : q.drop k with
      | nil => exact absurd hx hrem
      | cons a l2 => simp
    have hqs : drainQueues [q] 0 (k * d)
        = ⟨[q], 0 + (q.take k).length, k * d - d * k, q.take k⟩ := by
      simp [drainQueues, List.drop_zero, hq, hne]
    simp [hqs, List.length_take, hlen, Nat.mul_comm d k]
    omega

/-- Witness for C1: three events of 5 ms each submitted at time 100 to an
idle manager with stale scratch state; a single tick at 110 = 100 + 2*5
fires exactly 2 events and leaves budget 0. -/
theorem C1_drain_budget_exact_witness :
    (List.replicate 3 (mkKeyEvent 4 true 5)).length = 3 ∧
    (∀ e ∈ List.replicate 3 (mkKeyEvent 4 true 5), e.wait_ms = 5) ∧
    0 < 5 ∧ 2 ≤ 3 ∧
    ((process_input_event_queues
        (submit_input_queue ⟨[], 7, 40, 999, false⟩
          (some (List.replicate 3 (mkKeyEvent 4 true 5))) 100)
        (100 + 2 * 5)).2.length = min 2 3 ∧
     (process_input_event_queues
        (submit_input_queue ⟨[], 7, 40, 999, false⟩
          (some (List.replicate 3 (mkKeyEvent 4 true 5))) 100)
        (100 + 2 * 5)).1.elapsed_time = 2 * 5 - min 2 3 * 5) :=
  ⟨by decide, by decide, by decide, by decide,
    C1_drain_budget_exact 3 2 5 100 7 40 999
      (List.replicate 3 (mkKeyEvent 4 true 5))
      (by decide) (by decide) (by decide) (by decide)⟩

/-- Claim C2: events fire in strict FIFO order within and across queues.
First conjunct: over any sequence of drain ticks from any manager state, the
fired trace followed by the events still remaining equals the events that
remained at the start (fired events form, in order, a prefix of the pending
concatenation).  Second conjunct: when a second queue is submitted while an
earlier queue is still draining, the whole fired trace over any tick
sequence stays a prefix of (rest of first queue) ++ (second queue), so no
event of the second queue can fire before the first queue is exhausted. -/
theorem C2_strict_fifo :
    (∀ (m : QueueManager) (ts : List Nat),
      (run_ticks m ts).2 ++ remaining_events (run_ticks m ts).1
        = remaining_events m) ∧
    (∀ (q1 q2 : List InputEvent) (i l e t : Nat) (ts : List Nat),
      (run_ticks (submit_input_queue ⟨[q1], i, l, e, true⟩ (some q2) t) ts).2
          ++ remaining_events
            (run_ticks (submit_input_queue ⟨[q1], i, l, e, true⟩ (some q2) t)
              ts).1
        = q1.drop i ++ q2 ∧
      (run_ticks (submit_input_queue ⟨[q1], i, l, e, true⟩ (some q2) t) ts).2
        <+: q1.drop i ++ q2) := by
  refine ⟨fun m ts => run_ticks_conservation ts m, ?_⟩
  intro q1 q2 i l e t ts
  have hsub : submit_input_queue ⟨[q1], i, l, e, true⟩ (some q2) t
      = ⟨[q1, q2], i, l, e, true⟩ := by
    simp [submit_input_queue]
  have hrem : remaining_events (⟨[q1, q2], i, l, e, true⟩ : QueueManager)
      = q1.drop i ++ q2 := by
    simp [remaining_events, pendingRemaining]
  constructor
  · rw [hsub, run_ticks_conservation, hrem]
  · exact ⟨_, by rw [hsub, run_ticks_conservation, hrem]⟩

/-- Counterexample to claim C6 as stated: a single-event queue (pre-delay 5)
submitted to the idle manager at time 0 and drained by one tick at time 12
reaches the idle state (no pending queues, cursor 0, inactive), but the
accumulated elapsed-time budget is left at 7, not cleared to zero. -/
theorem C6_counterexample :
    (process_input_event_queues
        (submit_input_queue ⟨[], 0, 0, 0, false⟩
          (some [mkKeyEvent 4 true 5]) 0) 12).1.pending = [] ∧
    (process_input_event_queues
        (submit_input_queue ⟨[], 0, 0, 0, false⟩
          (some [mkKeyEvent 4 true 5]) 0) 12).1.processing_active = false ∧
    (process_input_event_queues
        (submit_input_queue ⟨[], 0, 0, 0, false⟩
          (some [mkKeyEvent 4 true 5]) 0) 12).1.current_event_index = 0 ∧
    (process_input_event_queues
        (submit_input_queue ⟨[], 0, 0, 0, false⟩
          (some [mkKeyEvent 4 true 5]) 0) 12).1.elapsed_time = 7 ∧
    ¬ (process_input_event_queues
        (submit_input_queue ⟨[], 0, 0, 0, false⟩
          (some [mkKeyEvent 4 true 5]) 0) 12).1.elapsed_time = 0 := by
  decide

/-- Claim C6 (amended): when a drain tick exhausts the last pending queue,
the manager becomes inactive with zero pending queues and the per-event
cursor reset to zero — but the accumulated elapsed-time budget is left as it
stands (it is reset only on the next submit-from-idle).  Moreover a drain
tick repeated with zero elapsed time is a no-op: it fires nothing and leaves
the state unchanged, for any number of repetitions. -/
theorem C6_idle_transition_amended :
    (∀ (m : QueueManager) (now : Nat), m.pending ≠ [] →
      (process_input_event_queues m now).1.pending = [] →
      (process_input_event_queues m now).1.processing_active = false ∧
      (process_input_event_queues m now).1.current_event_index = 0) ∧
    (∀ (m : QueueManager) (now : Nat),
      process_input_event_queues (process_input_event_queues m now).1 now
        = ((process_input_event_queues m now).1, [])) ∧
    (∀ (m : QueueManager) (now n : Nat),
      run_ticks (process_input_event_queues m now).1 (List.replicate n now)
        = ((process_input_event_queues m now).1, [])) := by
  have hB : ∀ (m : QueueManager) (now : Nat),
      process_input_event_queues (process_input_event_queues m now).1 now
        = ((process_input_event_queues m now).1, []) := by
    intro m now
    by_cases h : m.processing_active = false ∨ m.pending = []
    · have hm : process_input_event_queues m now = (m, []) := by
        simp [process_input_event_queues, h]
      rw [hm]; exact hm
    · push_neg at h
      have hact : m.processing_active = true := by
        cases hx : m.processing_active with
        | false => exact absurd hx h.1
        | true => rfl
      have hcond : ¬ (m.processing_active = false ∨ m.pending = []) := by
        rw [hact]; simp [h.2]
      have hm : process_input_event_queues m now
          = (⟨(drainQueues m.pending m.current_event_index
                (m.elapsed_time + (now - m.last_event_time))).queues,
              (drainQueues m.pending m.current_event_index
                (m.elapsed_time + (now - m.last_event_time))).idx, now,
              (drainQueues m.pending m.current_event_index
                (m.elapsed_time + (now - m.last_event_time))).budget,
              if (drainQueues m.pending m.current_event_index
                (m.elapsed_time + (now - m.last_event_time))).queues = []
              then false else m.processing_active⟩,
             (drainQueues m.pending m.current_event_index
                (m.elapsed_time + (now - m.last_event_time))).fired) := by
        simp only [process_input_event_queues]
        rw [if_neg hcond]
      rw [hm]
      by_cases hqe : (drainQueues m.pending m.current_event_index
          (m.elapsed_time + (now - m.last_event_time))).queues = []
      · simp [process_input_event_queues, hqe]
      · have hidem := drainQueues_idem m.pending m.current_event_index
          (m.elapsed_time + (now - m.last_event_time))
        have hcond2 : ¬ ((if (drainQueues m.pending m.current_event_index
              (m.elapsed_time + (now - m.last_event_time))).queues = []
            then false else m.processing_active) = false ∨
            (drainQueues m.pending m.current_event_index
              (m.elapsed_time + (now - m.last_event_time))).queues = []) := by
          rw [if_neg hqe, hact]; simp [hqe]
        simp only [process_input_event_queues]
        rw [if_neg hcond2]
        simp only [Nat.sub_self, Nat.add_zero, hidem]
        simp [hqe]
  refine ⟨?_, hB, ?_⟩
  · intro m now hpend hempty
    by_cases h : m.processing_active = false ∨ m.pending = []
    · have hm : (process_input_event_queues m now).1 = m := by
        simp [process_input_event_queues, h]
      rw [hm] at hempty
      exact absurd hempty hpend
    · push_neg at h
      have hact : m.processing_active = true := by
        cases hx : m.processing_active with
        | false => exact absurd hx h.1
        | true => rfl
      have hcond : ¬ (m.processing_active = false ∨ m.pending = []) := by
        rw [hact]; simp [h.2]
      simp only [process_input_event_queues] at hempty ⊢
      rw [if_neg hcond] at hempty ⊢
      simp only at hempty
      refine ⟨by simp [hempty],
        drainQueues_exhaust_idx _ _ _ hpend hempty⟩
  · intro m now n
    induction n with
    | zero => simp [run_ticks]
    | succ n ih =>
      simp only [List.replicate_succ, run_ticks, hB, ih]
      simp

/-- Witness for C6 (amended): the single-event drain of the counterexample
scenario reaches the idle state with zero pending queues and cursor zero. -/
theorem C6_idle_transition_amended_witness :
    ((⟨[[mkKeyEvent 4 true 5]], 0, 0, 0, true⟩ : QueueManager).pending ≠ [] ∧
     (process_input_event_queues
        (⟨[[mkKeyEvent 4 true 5]], 0, 0, 0, true⟩ : QueueManager)
        12).1.pending = []) ∧
    ((process_input_event_queues
        (⟨[[mkKeyEvent 4 true 5]], 0, 0, 0, true⟩ : QueueManager)
        12).1.processing_active = false ∧
     (process_input_event_queues
        (⟨[[mkKeyEvent 4 true 5]], 0, 0, 0, true⟩ : QueueManager)
        12).1.current_event_index = 0) :=
  ⟨⟨by decide, by decide⟩,
    C6_idle_transition_amended.1 ⟨[[mkKeyEvent 4 true 5]], 0, 0, 0, true⟩ 12
      (by decide) (by decide)⟩

/-- Claim C10: submitting a non-null queue while the manager is idle resets
the accumulated budget to zero, the per-event cursor to zero and the
last-tick time to the submit time before draining begins; consequently, on
any later tick the pre-delays consumed by the fired events never exceed the
time actually elapsed since the submit — stale budget cannot fire events of
the new queue early. -/
theorem C10_submit_idle_resets (m : QueueManager) (q : List InputEvent)
    (now : Nat) (hidle : m.processing_active = false) :
    submit_input_queue m (some q) now
      = ⟨m.pending ++ [q], 0, now, 0, true⟩ ∧
    ∀ now2 : Nat, sumWait (process_input_event_queues
        (submit_input_queue m (some q) now) now2).2 ≤ now2 - now := by
  have hsub : submit_input_queue m (some q) now
      = ⟨m.pending ++ [q], 0, now, 0, true⟩ := by
    simp [submit_input_queue, hidle]
  refine ⟨hsub, ?_⟩
  intro now2
  rw [hsub]
  by_cases hp : m.pending ++ [q] = []
  · simp at hp
  · have hbud := drainQueues_budget (m.pending ++ [q]) 0 (0 + (now2 - now))
    simp only [process_input_event_queues, Bool.true_eq_false, false_or, hp,
      ite_false, if_neg]
    omega

/-- Witness for C10: an idle manager with stale cursor 3, stale last-tick
time 100 and stale budget 999; a submit at time 50 resets all three, and a
tick 2 ms later fires nothing of the 5 ms event. -/
theorem C10_submit_idle_resets_witness :
    (⟨[], 3, 100, 999, false⟩ : QueueManager).processing_active = false ∧
    submit_input_queue ⟨[], 3, 100, 999, false⟩
        (some [mkKeyEvent 4 true 5]) 50
      = ⟨[[mkKeyEvent 4 true 5]], 0, 50, 0, true⟩ ∧
    sumWait (process_input_event_queues
        (submit_input_queue ⟨[], 3, 100, 999, false⟩
          (some [mkKeyEvent 4 true 5]) 50) 52).2 ≤ 52 - 50 :=
  ⟨by decide,
    by
      have h := C10_submit_idle_resets ⟨[], 3, 100, 999, false⟩
        [mkKeyEvent 4 true 5] 50 (by decide)
      simpa using h.1,
    (C10_submit_idle_resets ⟨[], 3, 100, 999, false⟩
      [mkKeyEvent 4 true 5] 50 (by decide)).2 52⟩

/-- Scanning a run of accepted characters stops exactly at a rejected
terminator. -/
theorem takeWhile_append_single (p : Char → Bool) (l : List Char) (x : Char)
    (h : ∀ c ∈ l, p c = true) (hx : p x = false) :
    (l ++ [x]).takeWhile p = l := by
  induction l with
  | nil => simp [List.takeWhile_cons, hx]
  | cons a l ih =>
    have ha : p a = true := h a (by simp)
    simp only [List.cons_append, List.takeWhile_cons, ha, if_pos]
    rw [ih (fun c hc => h c (by simp [hc]))]

/-- A map that fixes every member is the identity. -/
theorem map_id_of_mem {l : List Char} {f : Char → Char}
    (h : ∀ a ∈ l, f a = a) : l.map f = l := by
  induction l with
  | nil => rfl
  | cons a l ih =>
    simp only [List.map_cons, h a (by simp),
      ih (fun c hc => h c (by simp [hc]))]

/-- Decimal digits are valid macro-name characters. -/
theorem digit_isMacroChar (c : Char) (h : 48 ≤ c.toNat ∧ c.toNat ≤ 57) :
    isMacroChar c = true := by
  simp [isMacroChar]
  omega

/-- Decimal digits are unchanged by the uppercase conversion. -/
theorem digit_toUpper (c : Char) (h : 48 ≤ c.toNat ∧ c.toNat ≤ 57) :
    toUpperChar c = c := by
  simp only [toUpperChar]
  rw [if_neg]
  simp
  omega

/-- Char.ofNat round-trips on small codes. -/
theorem toNat_ofNat_small (n : Nat) (h : n < 55296) :
    (Char.ofNat n).toNat = n := by
  have hv : n.isValidChar := Or.inl h
  simp [Char.ofNat, Char.toNat, hv, Char.ofNatAux, UInt32.toNat,
    BitVec.toNat_ofNatLt]

/-- The uppercase conversion cannot produce an underscore from another
character. -/
theorem toUpperChar_ne_underscore (c : Char) (h : c ≠ '_') :
    toUpperChar c ≠ '_' := by
  intro he
  by_cases hc : (97 ≤ c.toNat && c.toNat ≤ 122) = true
  · have hb : 97 ≤ c.toNat ∧ c.toNat ≤ 122 := by simpa using hc
    simp only [toUpperChar, hc, if_true] at he
    have h1 : (Char.ofNat (c.toNat - 32)).toNat = c.toNat - 32 :=
      toNat_ofNat_small _ (by omega)
    have h2 : (Char.ofNat (c.toNat - 32)).toNat = 95 := by rw [he]; rfl
    omega
  · simp only [toUpperChar, hc, if_false] at he
    exact absurd he h

/-- The C scanner consumes an unknown macro token in full, appends no
events, and leaves the modifier state untouched: an unknown name is only a
logged warning.  The token here is a maximal run of macro characters that is
not a dynamic-wait form and is absent from the named-macro table, followed
by its closing backtick. -/
theorem parse_macro_unknown (name : List Char) (rate : Nat) (st : ParseState)
    (hne : name ≠ [])
    (hmc : ∀ c ∈ name, isMacroChar c = true)
    (hnw : ¬ (name.head? = some '_' ∧ 1 < name.length))
    (hfind : macro_map.find?
      (fun p => p.1 = String.mk (name.map toUpperChar)) = none) :
    parse_macro (name ++ [backtickChar]) rate st = (name.length, st) := by
  have hname : (name ++ [backtickChar]).takeWhile isMacroChar = name :=
    takeWhile_append_single isMacroChar name backtickChar hmc (by decide)
  have hnotempty : name.isEmpty = false := by
    cases name with
    | nil => exact absurd rfl hne
    | cons a l => simp
  have hcond : ((name.map toUpperChar).head? = some '_' &&
      1 < (name.map toUpperChar).length) = false := by
    by_cases hl : 1 < name.length
    · cases name with
      | nil => exact absurd rfl hne
      | cons c0 nt =>
        have hc0 : c0 ≠ '_' := by
          intro hh
          exact hnw ⟨by rw [hh]; rfl, hl⟩
        have : toUpperChar c0 ≠ '_' := toUpperChar_ne_underscore c0 hc0
        simp [this]
    · simp only [List.length_map]
      simp [hl]
  simp only [ parse_macro, hname, hnotempty, Bool.false_eq_true, if_false,
    hcond, hfind, Option.map_none]
  simp

/-- Counterexample to claim C3 as stated: the input "abc`XYZ" holds an
unterminated macro token, yet the translation reports success and the three
leading characters' events are present in the queue. -/
theorem C3_counterexample :
    (translate_ascii_to_events "abc`XYZ".toList 35 DisplayMode.PETSCII).2
      = true ∧
    (translate_ascii_to_events "abc`XYZ".toList 35 DisplayMode.PETSCII).1
      ≠ [] := by
  decide

/-- Claim C3 (amended): an unterminated macro token never fails the
translation — for every input (with a non-null destination queue) the
function reports success; the token is only logged as a warning, and for
"abc`XYZ" the events already emitted for a, b, c stay in the queue. -/
theorem C3_unterminated_amended :
    (∀ (input : List Char) (rate : Nat) (mode : DisplayMode),
      (translate_ascii_to_events input rate mode).2 = true) ∧
    (translate_ascii_to_events "abc`XYZ".toList 35 DisplayMode.PETSCII).1
      = [mkKeyEvent 4 true 35, mkKeyEvent 4 false 10,
         mkKeyEvent 5 true 35, mkKeyEvent 5 false 10,
         mkKeyEvent 6 true 35, mkKeyEvent 6 false 10] :=
  ⟨fun _ _ _ => rfl, by decide⟩

/-- Counterexample to claim C4 as stated: the unknown macro "`NOPE`"
translates with success=true and no error — the claim demands failure with
the offending name reported. -/
theorem C4_counterexample :
    translate_ascii_to_events "`NOPE`".toList 35 DisplayMode.PETSCII
      = ([], true) := by
  decide

/-- Claim C4 (amended): a backtick-delimited macro token (a maximal run of
macro-name characters) that is not a dynamic wait directive and is not in
the named-macro table does not fail the translation: the scanner consumes
it with only a logged warning, emits no events for it, and the translation
still reports success. -/
theorem C4_unknown_macro_amended (name : List Char) (rate : Nat)
    (mode : DisplayMode)
    (hne : name ≠ [])
    (hmc : ∀ c ∈ name, isMacroChar c = true)
    (hnw : ¬ (name.head? = some '_' ∧ 1 < name.length))
    (hfind : macro_map.find?
      (fun p => p.1 = String.mk (name.map toUpperChar)) = none) :
    translate_ascii_to_events (backtickChar :: (name ++ [backtickChar]))
      rate mode = ([], true) := by
  cases name with
  | nil => exact absurd rfl hne
  | cons c0 nt =>
    have hpm := parse_macro_unknown (c0 :: nt) rate ⟨[], false, false⟩
      hne hmc hnw hfind
    have hdrop : ((c0 :: nt) ++ [backtickChar]).drop (c0 :: nt).length
        = [backtickChar] := List.drop_left _ _
    simp only [List.cons_append] at hpm hdrop
    simp only [translate_ascii_to_events, List.cons_append, List.length_cons]
    simp only [translateLoop, if_pos rfl, List.cons_append, hpm,
      List.length_cons, hdrop]
    simp [translateLoop]

/-- Witness for C4 (amended): the token NOPE is all macro characters, is not
a wait directive, is absent from the table, and "`NOPE`" translates to an
empty queue with success. -/
theorem C4_unknown_macro_amended_witness :
    ("NOPE".toList ≠ [] ∧
     (∀ c ∈ "NOPE".toList, isMacroChar c = true) ∧
     ¬ ("NOPE".toList.head? = some '_' ∧ 1 < "NOPE".toList.length) ∧
     macro_map.find?
       (fun p => p.1 = String.mk ("NOPE".toList.map toUpperChar)) = none) ∧
    translate_ascii_to_events
      (backtickChar :: ("NOPE".toList ++ [backtickChar]))
      35 DisplayMode.PETSCII = ([], true) :=
  ⟨⟨by decide, by decide, by decide, by decide⟩,
    C4_unknown_macro_amended "NOPE".toList 35 DisplayMode.PETSCII
      (by decide) (by decide) (by decide) (by decide)⟩

/-- Claim C5: the dynamic wait token `_500` yields exactly one Wait event of
500 ms, `_1.5` yields exactly one Wait event of 1500 ms (seconds converted
to milliseconds because of the dot), and neither yields any Keyboard
event. -/
theorem C5_dynamic_wait :
    translate_ascii_to_events "`_500`".toList 35 DisplayMode.PETSCII
      = ([mkWaitEvent 500], true) ∧
    translate_ascii_to_events "`_1.5`".toList 35 DisplayMode.PETSCII
      = ([mkWaitEvent 1500], true) ∧
    (translate_ascii_to_events "`_500`".toList 35 DisplayMode.PETSCII).1.filter
      (fun e => e.type == InputType.keyboard) = [] ∧
    (translate_ascii_to_events "`_1.5`".toList 35 DisplayMode.PETSCII).1.filter
      (fun e => e.type == InputType.keyboard) = [] := by
  decide

/-- Counterexample to claim C9 as stated: in the event-based translator the
token "`K65`" produces no key event at all (let alone one with code 65),
and the out-of-range "`K300`" does not fail — both translate to an empty
queue with success=true. -/
theorem C9_counterexample :
    translate_ascii_to_events "`K65`".toList 35 DisplayMode.PETSCII
      = ([], true) ∧
    translate_ascii_to_events "`K300`".toList 35 DisplayMode.PETSCII
      = ([], true) := by
  decide

/-- Claim C9 (amended): the event-based translation has no raw-scancode
macro: a backtick-delimited token of `K` followed by any digit string —
whether its value is in 0–255 or not — is looked up as an ordinary macro
name, misses the table, and is consumed with no events and no failure. -/
theorem C9_raw_scancode_amended (ds : List Char) (rate : Nat)
    (mode : DisplayMode)
    (hdig : ∀ c ∈ ds, 48 ≤ c.toNat ∧ c.toNat ≤ 57) :
    translate_ascii_to_events
      (backtickChar :: 'K' :: (ds ++ [backtickChar])) rate mode
      = ([], true) := by
  have hname : ('K' :: (ds ++ [backtickChar])).takeWhile isMacroChar
      = 'K' :: ds := by
    rw [List.takeWhile_cons, if_pos (by decide),
      takeWhile_append_single isMacroChar ds backtickChar
        (fun c hc => digit_isMacroChar c (hdig c hc)) (by decide)]
  have huname : ('K' :: ds).map toUpperChar = 'K' :: ds := by
    apply map_id_of_mem
    intro a ha
    rcases List.mem_cons.mp ha with h | h
    · rw [h]; decide
    · exact digit_toUpper a (hdig a h)
  have hfind : macro_map.find? (fun p => p.1 = String.mk ('K' :: ds))
      = none := by
    apply List.find?_eq_none.mpr
    intro p hp
    simp only [decide_eq_true_eq]
    intro heq
    have hhead : p.1.data.head? = some 'K' := by
      rw [show p.1.data = 'K' :: ds from by rw [heq]]
      rfl
    have hall : ∀ x ∈ macro_map, ¬ x.1.data.head? = some 'K' := by decide
    exact hall p hp hhead
  have hpm : parse_macro ('K' :: (ds ++ [backtickChar])) rate
      ⟨[], false, false⟩ = (ds.length + 1, ⟨[], false, false⟩) := by
    simp only [ parse_macro, hname, huname, List.isEmpty_cons,
      List.head?_cons, List.length_cons, hfind, Option.map_none]
    simp
  have hdrop : ('K' :: (ds ++ [backtickChar])).drop (ds.length + 1)
      = [backtickChar] := by
    rw [show ('K' :: (ds ++ [backtickChar]))
        = ('K' :: ds) ++ [backtickChar] from by simp]
    simp
  simp only [translate_ascii_to_events, List.length_cons]
  simp only [translateLoop, if_pos rfl, hpm, hdrop]
  simp

/-- Witness for C9 (amended): the digit string 65 — "`K65`" translates to an
empty queue with success. -/
theorem C9_raw_scancode_amended_witness :
    (∀ c ∈ ['6', '5'], 48 ≤ c.toNat ∧ c.toNat ≤ 57) ∧
    translate_ascii_to_events
      (backtickChar :: 'K' :: (['6', '5'] ++ [backtickChar]))
      35 DisplayMode.PETSCII = ([], true) :=
  ⟨by decide,
    C9_raw_scancode_amended ['6', '5'] 35 DisplayMode.PETSCII (by decide)⟩

/-- The shift/ctrl requirement of a literal character as computed inline in
translate_ascii_to_events: the table bits, with shift forced for uppercase
letters in ASCII display mode. -/
def required_mods (mode : DisplayMode) (c : Char) : Bool × Bool :=
  ((char_lookup c).needs_shift ||
      ((mode = DisplayMode.ASCII : Bool) && 65 ≤ c.toNat && c.toNat ≤ 90),
    (char_lookup c).needs_ctrl)

/-- The modifier toggle events emitted when the carried modifier state `s`
must become `t`: a left-shift event when the shift bit differs, then a
left-alt event when the ctrl bit differs, each with the minimum delay. -/
def mod_delta_events (s t : Bool × Bool) : List InputEvent :=
  (if t.1 ≠ s.1 then
    [mkKeyEvent SDL_SCANCODE_LSHIFT t.1 KEY_EVENT_MIN_DELAY_MS] else []) ++
  (if t.2 ≠ s.2 then
    [mkKeyEvent SDL_SCANCODE_LALT t.2 KEY_EVENT_MIN_DELAY_MS] else [])

/-- processChar on a mapped sub-128 character decomposes into the modifier
delta followed by the press/release pair, with the modifier state moving to
the character's requirement. -/
theorem processChar_block (mode : DisplayMode) (rate : Nat) (c : Char)
    (st : ParseState) (h128 : ¬ 128 ≤ c.toNat)
    (hsc : (char_lookup c).scancode ≠ 0) :
    processChar mode rate c st
      = ⟨st.events ++ mod_delta_events (st.shift_down, st.ctrl_down)
            (required_mods mode c)
          ++ [mkKeyEvent (char_lookup c).scancode true rate,
              mkKeyEvent (char_lookup c).scancode false KEY_EVENT_UP_DELAY_MS],
         (required_mods mode c).1, (required_mods mode c).2⟩ := by
  by_cases hs : (required_mods mode c).1 ≠ st.shift_down <;>
    by_cases hc : (required_mods mode c).2 ≠ st.ctrl_down <;>
      simp only [processChar, required_mods, mod_delta_events, addEvent,
        if_neg h128, if_neg hsc] at hs hc ⊢ <;>
      simp_all

/-- An unmapped or non-ASCII character is skipped without effect. -/
theorem processChar_skip (mode : DisplayMode) (rate : Nat) (c : Char)
    (st : ParseState) (h : 128 ≤ c.toNat ∨ (char_lookup c).scancode = 0) :
    processChar mode rate c st = st := by
  rcases h with h | h
  · simp [processChar, h]
  · by_cases h128 : 128 ≤ c.toNat
    · simp [processChar, h128]
    · simp [processChar, h128, h]

/-- The MACRO_KEY branch of parse_macro decomposes like a literal
character, with the table's modifier requirement. -/
theorem applyMacroAction_key_block (a : MacroAction) (rate : Nat)
    (st : ParseState) (ht : a.type = MacroActionType.MACRO_KEY) :
    applyMacroAction a rate st
      = ⟨st.events ++ mod_delta_events (st.shift_down, st.ctrl_down)
            (a.needs_shift, a.needs_ctrl)
          ++ [mkKeyEvent a.value true rate,
              mkKeyEvent a.value false KEY_EVENT_UP_DELAY_MS],
         a.needs_shift, a.needs_ctrl⟩ := by
  by_cases hs : a.needs_shift ≠ st.shift_down <;>
    by_cases hc : a.needs_ctrl ≠ st.ctrl_down <;>
      simp only [applyMacroAction, ht, mod_delta_events, addEvent] at hs hc ⊢ <;>
      simp_all

/-- A wait event leaves the hardware modifier state unchanged. -/
theorem stepMod_wait (s : Bool × Bool) (ms : Nat) :
    stepMod s (mkWaitEvent ms) = s := by
  simp [stepMod, mkWaitEvent]

/-- A keyboard event whose scancode is neither modifier leaves the hardware
modifier state unchanged. -/
theorem stepMod_key (s : Bool × Bool) (code : Nat) (d : Bool) (w : Nat)
    (h1 : code ≠ SDL_SCANCODE_LSHIFT) (h2 : code ≠ SDL_SCANCODE_LALT) :
    stepMod s (mkKeyEvent code d w) = s := by
  simp [stepMod, mkKeyEvent, h1, h2]

/-- Replaying the modifier delta moves the hardware modifier state from `s`
to `t`. -/
theorem modDelta_replay (s t : Bool × Bool) :
    (mod_delta_events s t).foldl stepMod s = t := by
  rcases s with ⟨s1, s2⟩
  rcases t with ⟨t1, t2⟩
  by_cases h1 : t1 = s1 <;> by_cases h2 : t2 = s2 <;>
    simp [mod_delta_events, h1, h2, stepMod, mkKeyEvent, SDL_SCANCODE_LSHIFT,
      SDL_SCANCODE_LALT]

/-- No character-table scancode collides with the two modifier codes. -/
theorem char_lookup_not_modifier (c : Char) :
    (char_lookup c).scancode ≠ SDL_SCANCODE_LSHIFT ∧
    (char_lookup c).scancode ≠ SDL_SCANCODE_LALT := by
  unfold char_lookup
  cases h : char_map.find? (fun m => m.ascii_char = c) with
  | none => simp [SDL_SCANCODE_LSHIFT, SDL_SCANCODE_LALT]
  | some m =>
    have hm : m ∈ char_map := List.mem_of_find?_eq_some h
    have hall : ∀ x ∈ char_map, x.scancode ≠ SDL_SCANCODE_LSHIFT ∧
        x.scancode ≠ SDL_SCANCODE_LALT := by decide
    simpa using hall m hm

/-- No named-macro scancode collides with the two modifier codes. -/
theorem macro_map_not_modifier : ∀ p ∈ macro_map,
    p.2.value ≠ SDL_SCANCODE_LSHIFT ∧ p.2.value ≠ SDL_SCANCODE_LALT := by
  decide

/-- Parse-state soundness: replaying the emitted events over the hardware
modifier state reproduces the parser's carried shift/ctrl flags. -/
def modInvariant (st : ParseState) : Prop :=
  st.events.foldl stepMod (false, false) = (st.shift_down, st.ctrl_down)

/-- Literal-character emission preserves modifier soundness. -/
theorem processChar_modInv (mode : DisplayMode) (rate : Nat) (c : Char)
    (st : ParseState) (h : modInvariant st) :
    modInvariant (processChar mode rate c st) := by
  by_cases hm : 128 ≤ c.toNat ∨ (char_lookup c).scancode = 0
  · rw [processChar_skip mode rate c st hm]; exact h
  · push_neg at hm
    rw [processChar_block mode rate c st (by omega) hm.2]
    have hcc := char_lookup_not_modifier c
    have hk : ∀ (s : Bool × Bool) (d : Bool) (w : Nat),
        stepMod s (mkKeyEvent (char_lookup c).scancode d w) = s :=
      fun s d w => stepMod_key s _ d w hcc.1 hcc.2
    unfold modInvariant at h ⊢
    simp only [List.foldl_append, List.foldl_cons, List.foldl_nil, h,
      modDelta_replay, hk]

/-- Macro-key emission preserves modifier soundness (the macro's scancode is
not a modifier code). -/
theorem applyMacroAction_modInv (a : MacroAction) (rate : Nat)
    (st : ParseState) (h : modInvariant st)
    (h1 : a.value ≠ SDL_SCANCODE_LSHIFT) (h2 : a.value ≠ SDL_SCANCODE_LALT) :
    modInvariant (applyMacroAction a rate st) := by
  have hk : ∀ (s : Bool × Bool) (d : Bool) (w : Nat),
      stepMod s (mkKeyEvent a.value d w) = s :=
    fun s d w => stepMod_key s _ d w h1 h2
  cases ht : a.type with
  | MACRO_KEY =>
    rw [applyMacroAction_key_block a rate st ht]
    unfold modInvariant at h ⊢
    simp only [List.foldl_append, List.foldl_cons, List.foldl_nil, h,
      modDelta_replay, hk]
  | MACRO_WAIT =>
    unfold modInvariant at h ⊢
    simp [applyMacroAction, ht, addEvent, List.foldl_append, h, stepMod_wait]

/-- Macro parsing preserves modifier soundness. -/
theorem parse_macro_modInv (input : List Char) (rate : Nat)
    (st : ParseState) (h : modInvariant st) :
    modInvariant ( parse_macro input rate st).2 := by
  simp only [ parse_macro]
  split
  · exact h
  · split
    · split
      · exact h
      · unfold modInvariant at h ⊢
        simp [addEvent, List.foldl_append, h, stepMod_wait]
    · split
      · exact h
      · rename_i a heq
        rcases Option.map_eq_some'.mp heq with ⟨p, hp, hpa⟩
        have hmem := macro_map_not_modifier p (List.mem_of_find?_eq_some hp)
        exact applyMacroAction_modInv a rate st h (hpa ▸ hmem.1)
          (hpa ▸ hmem.2)

/-- The scan loop preserves modifier soundness. -/
theorem translateLoop_modInv (mode : DisplayMode) (rate : Nat) :
    ∀ (fuel : Nat) (input : List Char) (st : ParseState), modInvariant st →
    modInvariant (translateLoop mode rate fuel input st) := by
  intro fuel
  induction fuel with
  | zero =>
    intro input st h
    simpa [translateLoop] using h
  | succ fuel ih =>
    intro input st h
    cases input with
    | nil => simpa [translateLoop] using h
    | cons c rest =>
      simp only [translateLoop]
      split
      · split
        · exact h
        · split
          · split
            · exact ih _ _ ( parse_macro_modInv rest rate st h)
            · exact ih _ _ ( parse_macro_modInv rest rate st h)
          · exact ih _ _ ( parse_macro_modInv rest rate st h)
      · exact ih _ _ (processChar_modInv mode rate c st h)

/-- Claim C7: for every input accepted by the translation (the function
accepts every input given a non-null queue), replaying the produced queue
leaves both synthetic modifiers released: any still-held shift/ctrl is
released by the trailing minimum-delay events, so no queue can leave a
modifier stuck down. -/
theorem C7_no_stuck_modifiers (input : List Char) (rate : Nat)
    (mode : DisplayMode) :
    modReplay (translate_ascii_to_events input rate mode).1
      = (false, false) ∧
    (translate_ascii_to_events input rate mode).2 = true := by
  refine ⟨?_, rfl⟩
  have hst := translateLoop_modInv mode rate input.length input
    ⟨[], false, false⟩ (by simp [modInvariant])
  unfold modInvariant at hst
  unfold translate_ascii_to_events modReplay
  rw [List.foldl_append, List.foldl_append, hst]
  by_cases h1 : (translateLoop mode rate input.length input
      ⟨[], false, false⟩).shift_down <;>
    by_cases h2 : (translateLoop mode rate input.length input
      ⟨[], false, false⟩).ctrl_down <;>
    simp [h1, h2, stepMod, mkKeyEvent, SDL_SCANCODE_LSHIFT, SDL_SCANCODE_LALT]

/-- The per-character block construction following the spec's words: for each
input character, in input order, emit modifier toggle events exactly where
the required shift/ctrl state differs from the carried one, then exactly one
press event at the typing-rate delay immediately followed by one release
event at the short fixed delay; thread the required state to the next
character. -/
def spec_body (mode : DisplayMode) (rate : Nat) :
    List Char → Bool × Bool → List InputEvent × (Bool × Bool)
  | [], s => ([], s)
  | c :: cs, s =>
    let t := required_mods mode c
    let r := spec_body mode rate cs t
    (mod_delta_events s t
      ++ [mkKeyEvent (char_lookup c).scancode true rate,
          mkKeyEvent (char_lookup c).scancode false KEY_EVENT_UP_DELAY_MS]
      ++ r.1, r.2)

/-- The whole spec-shaped queue: the per-character blocks from released
modifiers, then the trailing releases that return both modifiers to the
released state. -/
def spec_typed_events (mode : DisplayMode) (rate : Nat)
    (cs : List Char) : List InputEvent :=
  (spec_body mode rate cs (false, false)).1
    ++ mod_delta_events (spec_body mode rate cs (false, false)).2
        (false, false)

/-- The scan loop on mapped sub-128 characters equals the spec-shaped block
construction. -/
theorem translateLoop_mapped (mode : DisplayMode) (rate : Nat) :
    ∀ (cs : List Char) (st : ParseState),
    (∀ c ∈ cs, ¬ 128 ≤ c.toNat ∧ (char_lookup c).scancode ≠ 0) →
    translateLoop mode rate cs.length cs st
      = ⟨st.events
            ++ (spec_body mode rate cs (st.shift_down, st.ctrl_down)).1,
         (spec_body mode rate cs (st.shift_down, st.ctrl_down)).2.1,
         (spec_body mode rate cs (st.shift_down, st.ctrl_down)).2.2⟩ := by
  intro cs
  induction cs with
  | nil => intro st h; simp [translateLoop, spec_body]
  | cons c cs ih =>
    intro st h
    have hc := h c (by simp)
    have hbt : ¬ c = backtickChar := by
      intro he
      have hz : (char_lookup backtickChar).scancode = 0 := by decide
      rw [he] at hc
      exact hc.2 hz
    simp only [List.length_cons, translateLoop, if_neg hbt]
    rw [processChar_block mode rate c st hc.1 hc.2]
    rw [ih _ (fun x hx => h x (by simp [hx]))]
    simp [spec_body, List.append_assoc]

/-- An event targeting one of the two synthetic modifier scancodes. -/
def isModifierEvent (e : InputEvent) : Bool :=
  e.code == SDL_SCANCODE_LSHIFT || e.code == SDL_SCANCODE_LALT

/-- Modifier delta events are all modifier events. -/
theorem filter_modDelta (s t : Bool × Bool) :
    (mod_delta_events s t).filter (fun e => !(isModifierEvent e)) = [] := by
  rcases s with ⟨s1, s2⟩
  rcases t with ⟨t1, t2⟩
  by_cases h1 : t1 = s1 <;> by_cases h2 : t2 = s2 <;>
    simp [mod_delta_events, h1, h2, isModifierEvent, mkKeyEvent,
      SDL_SCANCODE_LSHIFT, SDL_SCANCODE_LALT]

/-- Dropping the modifier events from the spec-shaped blocks leaves exactly
one press/release pair per character, in input order. -/
theorem spec_body_filter (mode : DisplayMode) (rate : Nat) :
    ∀ (cs : List Char) (s : Bool × Bool),
    ((spec_body mode rate cs s).1.filter (fun e => !(isModifierEvent e)))
      = (cs.map (fun c =>
          [mkKeyEvent (char_lookup c).scancode true rate,
           mkKeyEvent (char_lookup c).scancode false
             KEY_EVENT_UP_DELAY_MS])).flatten := by
  intro cs
  induction cs with
  | nil => intro s; simp [spec_body]
  | cons c cs ih =>
    intro s
    have hcc := char_lookup_not_modifier c
    have hkeep : ∀ (d : Bool) (w : Nat),
        isModifierEvent (mkKeyEvent (char_lookup c).scancode d w) = false := by
      intro d w
      simp [isModifierEvent, mkKeyEvent, hcc.1, hcc.2]
    simp only [spec_body, List.map_cons, List.flatten_cons,
      List.filter_append, filter_modDelta, ih]
    simp [List.filter_cons, hkeep]

/-- Claim C8: for inputs of mapped printable ASCII characters only (no
macros), the produced queue is exactly the spec-shaped block sequence —
modifier events appear only where the required shift/ctrl state differs
between consecutive characters (and at the end, returning to released) —
and the non-modifier events are, per character in input order, exactly one
press at the typing-rate delay immediately followed by one release at the
short fixed minimum delay. -/
theorem C8_press_release_blocks (cs : List Char) (rate : Nat)
    (mode : DisplayMode)
    (h : ∀ c ∈ cs, ¬ 128 ≤ c.toNat ∧ (char_lookup c).scancode ≠ 0) :
    translate_ascii_to_events cs rate mode
      = (spec_typed_events mode rate cs, true) ∧
    (translate_ascii_to_events cs rate mode).1.filter
        (fun e => !(isModifierEvent e))
      = (cs.map (fun c =>
          [mkKeyEvent (char_lookup c).scancode true rate,
           mkKeyEvent (char_lookup c).scancode false
             KEY_EVENT_UP_DELAY_MS])).flatten := by
  have hmain : translate_ascii_to_events cs rate mode
      = (spec_typed_events mode rate cs, true) := by
    unfold translate_ascii_to_events spec_typed_events
    rw [translateLoop_mapped mode rate cs ⟨[], false, false⟩ h]
    rcases hsb : (spec_body mode rate cs (false, false)).2 with ⟨b1, b2⟩
    by_cases h1 : b1 <;> by_cases h2 : b2 <;>
      simp [hsb, h1, h2, mod_delta_events]
  refine ⟨hmain, ?_⟩
  rw [hmain]
  unfold spec_typed_events
  simp only [List.filter_append, filter_modDelta, spec_body_filter,
    List.append_nil]

/-- Witness for C8: the input aA! in ASCII display mode — `a` needs no
modifiers, `A` needs shift (held through `!`, which also needs shift), and
the queue ends with the shift release. -/
theorem C8_press_release_blocks_witness :
    (∀ c ∈ ['a', 'A', '!'], ¬ 128 ≤ c.toNat ∧ (char_lookup c).scancode ≠ 0) ∧
    (translate_ascii_to_events ['a', 'A', '!'] 35 DisplayMode.ASCII
      = (spec_typed_events DisplayMode.ASCII 35 ['a', 'A', '!'], true) ∧
     (translate_ascii_to_events ['a', 'A', '!'] 35 DisplayMode.ASCII).1.filter
        (fun e => !(isModifierEvent e))
      = ((['a', 'A', '!']).map (fun c =>
          [mkKeyEvent (char_lookup c).scancode true 35,
           mkKeyEvent (char_lookup c).scancode false
             KEY_EVENT_UP_DELAY_MS])).flatten) :=
  ⟨by decide,
    C8_press_release_blocks ['a', 'A', '!'] 35 DisplayMode.ASCII (by decide)⟩
